import Mathlib

/-!
Verification development for the MeshCore enum sync generator
(`scripts/meshcore-enum-generator/meshcore_enum_generator.py`).

The Python program is shallowly embedded below.  Strings are modelled as
`List Char` (the program only handles ASCII protocol identifiers, so the
ASCII fragments of Python's `str.lower`, `str.upper`, `str.capitalize`,
`str.strip` and of the regex character classes are used).  Integers are
modelled as `Int` (Python integers are unbounded).  Python functions that
can raise an exception are modelled with `Option`/`Except`.
-/

/-- ASCII uppercase test, the fragment of Python `str.isupper` and of the
regex class `[A-Z]` relevant to the enum names handled by the program. -/
def isUpperA (c : Char) : Bool := decide (65 ≤ c.toNat ∧ c.toNat ≤ 90)

/-- ASCII lowercase test, the regex class `[a-z]`. -/
def isLowerA (c : Char) : Bool := decide (97 ≤ c.toNat ∧ c.toNat ≤ 122)

/-- ASCII digit test, the regex class `[0-9]`. -/
def isDigitA (c : Char) : Bool := decide (48 ≤ c.toNat ∧ c.toNat ≤ 57)

/-- Word-character test: the regex class `\w` = `[A-Za-z0-9_]` (ASCII model). -/
def isWordChar (c : Char) : Bool := isUpperA c || isLowerA c || isDigitA c || decide (c = '_')

/-- Whitespace test used by Python `str.strip()` and the regex class `\s`
(ASCII model: space, tab, newline, carriage return, vertical tab, form feed). -/
def pyIsSpace (c : Char) : Bool :=
  decide (c.toNat = 32 ∨ c.toNat = 9 ∨ c.toNat = 10 ∨ c.toNat = 13 ∨ c.toNat = 11 ∨ c.toNat = 12)

/-- ASCII fragment of Python `str.lower` applied to one character. -/
def pyToLower (c : Char) : Char :=
  if 65 ≤ c.toNat ∧ c.toNat ≤ 90 then Char.ofNat (c.toNat + 32) else c

/-- ASCII fragment of Python `str.upper` applied to one character. -/
def pyToUpper (c : Char) : Char :=
  if 97 ≤ c.toNat ∧ c.toNat ≤ 122 then Char.ofNat (c.toNat - 32) else c

/-- Python `s.lower()` on the ASCII model. -/
def pyLowerStr (l : List Char) : List Char := l.map pyToLower

/-- Python `s.strip()`: remove leading and trailing whitespace. -/
def pyStrip (l : List Char) : List Char :=
  ((l.dropWhile pyIsSpace).reverse.dropWhile pyIsSpace).reverse

/-- Python `s.split(sep)` for a one-character separator: always returns at
least one piece, empty pieces included (`"".split over "_"` gives `[""]`). -/
def pySplit (sep : Char) : List Char → List (List Char)
  | [] => [[]]
  | c :: cs =>
    if c = sep then [] :: pySplit sep cs
    else
      match pySplit sep cs with
      | [] => [[c]]
      | p :: ps => (c :: p) :: ps

/-- Python `s.capitalize()`: first character uppercased, the remaining
characters lowercased. -/
def pyCapitalize : List Char → List Char
  | [] => []
  | c :: cs => pyToUpper c :: cs.map pyToLower

/-- Python substring containment `needle in hay` for strings. -/
def hasSub (needle : List Char) : List Char → Bool
  | [] => needle.isEmpty
  | c :: cs => needle.isPrefixOf (c :: cs) || hasSub needle cs

/-- `MeshCoreExtractor._normalize_name`: convert SCREAMING_SNAKE_CASE to
lowerCamelCase.  `parts = name.lower().split(sep)` is never empty, so the
`if not parts: return name` guard of the source is a dead branch, kept here
as the `[]` case. -/
def _normalize_name (name : List Char) : List Char :=
  match pySplit '_' (pyLowerStr name) with
  | [] => name
  | p :: ps => p ++ (ps.map pyCapitalize).flatten

/-- Dataclass `EnumCase`: a single enum case extracted from Python source. -/
structure EnumCase where
  name : List Char
  value : Int
  source_file : List Char
  line_number : Nat
  original_name : List Char
  deriving DecidableEq

/-- Dataclass `EnumDefinition`: a complete enum definition from Python source. -/
structure EnumDefinition where
  name : List Char
  cases : List EnumCase
  base_type : List Char
  source_file : List Char
  deriving DecidableEq

/-- Dataclass `SwiftEnumCase`: an existing case of `ProtocolFrame.swift`. -/
structure SwiftEnumCase where
  name : List Char
  value : Int
  comment : Option (List Char)
  line_number : Option Nat
  deriving DecidableEq

/-- Dataclass `ChangeAnalysis`: per-group diff between Python and Swift enums. -/
structure ChangeAnalysis where
  target_enum : List Char
  additions : List EnumCase
  updates : List (EnumCase × SwiftEnumCase)
  duplicates : List EnumCase
  swift_extras : List SwiftEnumCase
  deriving DecidableEq

/-- Python AST expression fragment needed by `_evaluate_constant`:
`ast.Constant` carrying an int (Python `bool` being an `int` subclass,
`True`/`False` fall under `constInt 1`/`constInt 0`), `ast.Constant`
carrying a non-int value, unary minus, and the shapes the extractor
ignores (calls, tuples, bare names, anything else). -/
inductive PyExpr where
  | constInt (n : Int)
  | constNonInt
  | usub (e : PyExpr)
  | callE
  | tupleE
  | nameE (id : List Char)
  | otherE
  deriving DecidableEq

/-- Python AST assignment target: a plain `ast.Name` or any other shape. -/
inductive PyTarget where
  | nameT (id : List Char)
  | otherT
  deriving DecidableEq

/-- `ast.Assign` node: targets, assigned expression, line number. -/
structure PyAssign where
  targets : List PyTarget
  value : PyExpr
  lineno : Nat
  deriving DecidableEq

/-- Statement of a class body: an assignment or anything else. -/
inductive PyStmt where
  | assignS (a : PyAssign)
  | otherS
  deriving DecidableEq

/-- Base-class expression of `ast.ClassDef`: `ast.Name`, `ast.Attribute`
(only its final attribute name matters to the source), or other. -/
inductive PyBaseExpr where
  | nameB (id : List Char)
  | attributeB (attr : List Char)
  | otherB
  deriving DecidableEq

/-- `ast.ClassDef` node: name, base expressions, body statements. -/
structure PyClassDef where
  name : List Char
  bases : List PyBaseExpr
  body : List PyStmt
  deriving DecidableEq

/-- `MeshCoreExtractor._evaluate_constant`: evaluate an AST node to an
integer constant; the `ast.Num` branch of the source is the pre-3.8 alias
of `ast.Constant` and is covered by the same constructors. -/
def _evaluate_constant : PyExpr → Option Int
  | .constInt n => some n
  | .constNonInt => none
  | .usub e =>
    match _evaluate_constant e with
    | some i => some (-i)
    | none => none
  | .callE => none
  | .tupleE => none
  | .nameE _ => none
  | .otherE => none

/-- `MeshCoreExtractor._extract_enum_case`: a single-target assignment of
an integer constant to a plain name becomes one `EnumCase`.  The source's
`len(targets) != 1` and `not isinstance(target, ast.Name)` rejections are
both realised by the single-name match; the redundant
`not isinstance(value, int)` re-check collapses because
`_evaluate_constant` already returns an integer or `none`. -/
def _extract_enum_case (a : PyAssign) (source_file : List Char) : Option EnumCase :=
  match a.targets with
  | [ PyTarget.nameT id] =>
    match _evaluate_constant a.value with
    | some v => some ⟨_normalize_name id, v, source_file, a.lineno, id⟩
    | none => none
  | _ => none

/-- Per-statement case extraction: only `ast.Assign` nodes are inspected
(the `isinstance(node, ast.Assign)` filter of `_extract_int_enum`). -/
def caseOfStmt (source_file : List Char) : PyStmt → Option EnumCase
  | .assignS a => _extract_enum_case a source_file
  | .otherS => none

/-- `MeshCoreExtractor._is_int_enum_subclass`: rejects classes whose name
contains a handler-like word, otherwise looks for an `IntEnum`/`Enum` base. -/
def _is_int_enum_subclass (c : PyClassDef) : Bool :=
  let lower := pyLowerStr c.name
  if [ "command".toList, "handler".toList, "base".toList].any (fun w => hasSub w lower) then
    false
  else
    c.bases.any fun b =>
      match b with
      | .nameB id => decide (id = "IntEnum".toList ∨ id = "Enum".toList)
      | .attributeB attr => decide (attr = "IntEnum".toList ∨ attr = "Enum".toList)
      | .otherB => false

/-- The `for base in class_node.bases` loop of `_extract_int_enum` that
determines `base_type`, with its `break` semantics: the first `ast.Name`
base equal to `IntEnum` or `Enum` decides; default is `Enum`. -/
def determineBase : List PyBaseExpr → List Char
  | [] => "Enum".toList
  | .nameB id :: rest =>
    if id = "IntEnum".toList then "IntEnum".toList
    else if id = "Enum".toList then "Enum".toList
    else determineBase rest
  | .attributeB _ :: rest => determineBase rest
  | .otherB :: rest => determineBase rest

/-- `MeshCoreExtractor._extract_int_enum`.  `rel_path` models
`str(source_file.relative_to(self.source_dir))`, the path of the file
relative to the extraction root. -/
def _extract_int_enum (c : PyClassDef) (rel_path : List Char) : Option EnumDefinition :=
  if ¬ _is_int_enum_subclass c then none
  else
    let cases := c.body.filterMap (caseOfStmt rel_path)
    if cases.length < 2 then none
    else if c.name = "BinaryReqType".toList ∨ c.name = "ControlType".toList
        ∨ hasSub ( "commands".toList) (pyLowerStr rel_path) then none
    else if c.name ≠ "PacketType".toList then none
    else some ⟨c.name, cases, determineBase c.bases, rel_path⟩

/-- The three fixed Swift target groups (`CommandCode`, `ResponseCode`,
`PushCode`), the keys of the `swift_enums` dict of `map_to_swift_enums`. -/
inductive Target where
  | commandCode
  | responseCode
  | pushCode
  deriving DecidableEq

/-- The `swift_enums` dict with its three fixed keys. -/
structure SwiftEnumMap where
  commandCode : List EnumCase
  responseCode : List EnumCase
  pushCode : List EnumCase
  deriving DecidableEq

/-- Projection of a `SwiftEnumMap` at one of the three fixed keys. -/
def groupOf (m : SwiftEnumMap) : Target → List EnumCase
  | .commandCode => m.commandCode
  | .responseCode => m.responseCode
  | .pushCode => m.pushCode

/-- `MeshCoreExtractor._detect_target_enums_dynamic`: ordered name/value
heuristics mapping one definition to its target groups. -/
def _detect_target_enums_dynamic (d : EnumDefinition) : List Target :=
  let enum_name := pyLowerStr d.name
  let values := d.cases.map (·.value)
  if [ "req".toList, "cmd".toList, "command".toList, "binary".toList].any
      (fun k => hasSub k enum_name) then
    [Target.commandCode]
  else if [ "resp".toList, "response".toList, "event".toList].any
      (fun k => hasSub k enum_name) then
    if values.any (fun v => decide (128 ≤ v)) then [Target.pushCode]
    else [Target.responseCode]
  else if hasSub ( "packet".toList) enum_name then
    [Target.responseCode, Target.pushCode]
  else if ([ "event".toList, "type".toList].any fun k => hasSub k enum_name) && values.isEmpty then
    []
  else if values.isEmpty then
    []
  else if values.all (fun v => decide (v < 128)) then
    [Target.responseCode]
  else if values.all (fun v => decide (128 ≤ v)) then
    [Target.pushCode]
  else
    [Target.responseCode, Target.pushCode]

/-- One `swift_enums[target].append(case)` of `map_to_swift_enums`. -/
def addCase (m : SwiftEnumMap) (t : Target) (c : EnumCase) : SwiftEnumMap :=
  match t with
  | .commandCode => ⟨m.commandCode ++ [c], m.responseCode, m.pushCode⟩
  | .responseCode => ⟨m.commandCode, m.responseCode ++ [c], m.pushCode⟩
  | .pushCode => ⟨m.commandCode, m.responseCode, m.pushCode ++ [c]⟩

/-- The `for target in target_enums` loop of `map_to_swift_enums`. -/
def addTargets (m : SwiftEnumMap) (ts : List Target) (c : EnumCase) : SwiftEnumMap :=
  ts.foldl (fun m t => addCase m t c) m

/-- The body of the inner `for case in enum_def.cases` loop of
`map_to_swift_enums`; the state carries the `swift_enums` dict and the
`seen_cases` set (modelled as a list of keys). -/
def mapCaseStep (targets : List Target) (st : SwiftEnumMap × List (List Char × Int))
    (c : EnumCase) : SwiftEnumMap × List (List Char × Int) :=
  if (c.name, c.value) ∈ st.2 then st
  else (addTargets st.1 targets c, st.2 ++ [(c.name, c.value)])

/-- `MeshCoreExtractor.map_to_swift_enums`, taking the extracted
definitions in iteration order of `self.enums.values()`. -/
def map_to_swift_enums (enums : List EnumDefinition) : SwiftEnumMap :=
  (enums.foldl
    (fun st d => d.cases.foldl (mapCaseStep (_detect_target_enums_dynamic d)) st)
    (⟨[], [], []⟩, [])).1

/-- `re.split` with the pattern `([A-Z][a-z]*)` of the local
`normalize_swift_name` of `_analyze_enum_changes`: the pieces of text
between matches interleaved with the captured matches themselves (an
uppercase letter followed by a maximal run of lowercase letters).  The
fuel argument bounds the recursion; it is called with the input length,
which always suffices since every step consumes at least one character. -/
def reSplitUpperF : Nat → List Char → List (List Char)
  | _, [] => [[]]
  | 0, l => [l]
  | fuel + 1, c :: cs =>
    if isUpperA c then
      let run := cs.takeWhile isLowerA
      let rest := cs.dropWhile isLowerA
      [] :: (c :: run) :: reSplitUpperF fuel rest
    else
      match reSplitUpperF fuel cs with
      | [] => [[c]]
      | p :: ps => (c :: p) :: ps

/-- The local helper `normalize_swift_name` of `_analyze_enum_changes`:
`''.join(p.lower() for p in re.split(r'([A-Z][a-z]*)', name) if p).replace('_', '')`. -/
def normalize_swift_name (name : List Char) : List Char :=
  let parts := reSplitUpperF name.length name
  (((parts.filter (fun p => ¬ p.isEmpty)).map (fun p => p.map pyToLower)).flatten).filter
    (fun c => decide (c ≠ '_'))

/-- Membership of `py_key = (py_case.name.lower(), py_case.value)` in the
`swift_normalized_map` dict of `_analyze_enum_changes` (a dict keyed by
`(normalize_swift_name(case.name), case.value)`). -/
def coveredB (py : EnumCase) (swift_cases : List SwiftEnumCase) : Bool :=
  swift_cases.any fun sc =>
    decide (normalize_swift_name sc.name = pyLowerStr py.name ∧ sc.value = py.value)

/-- Membership of `py_case.value` in the `swift_value_map` dict of
`_analyze_enum_changes` (a dict keyed by `case.value`). -/
def valueMatchB (py : EnumCase) (swift_cases : List SwiftEnumCase) : Bool :=
  swift_cases.any fun sc => decide (sc.value = py.value)

/-- The three mutually exclusive outcomes of the per-case `if`/`elif`/`else`
chain of `_analyze_enum_changes`. -/
inductive DiffOutcome where
  | covered
  | duplicate
  | addition
  deriving DecidableEq

/-- The per-case `if`/`elif`/`else` chain of `_analyze_enum_changes`:
covered check first, value-only duplicate check second, addition last. -/
def classifyCase (py : EnumCase) (swift_cases : List SwiftEnumCase) : DiffOutcome :=
  if coveredB py swift_cases then .covered
  else if valueMatchB py swift_cases then .duplicate
  else .addition

/-- The `for py_case in python_cases` loop of `_analyze_enum_changes`,
accumulating the `additions` and `duplicates` lists in iteration order. -/
def diffLoop (swift_cases : List SwiftEnumCase) : List EnumCase → List EnumCase × List EnumCase
  | [] => ([], [])
  | py :: rest =>
    let tail := diffLoop swift_cases rest
    if coveredB py swift_cases then tail
    else if valueMatchB py swift_cases then (tail.1, py :: tail.2)
    else (py :: tail.1, tail.2)

/-- `SwiftAnalyzer._analyze_enum_changes`: diff one group's extracted cases
against its existing Swift cases.  `updates` is never populated by the
source and stays empty. -/
def _analyze_enum_changes (enum_name : List Char) (python_cases : List EnumCase)
    (swift_cases : List SwiftEnumCase) : ChangeAnalysis :=
  let fromLoop := diffLoop swift_cases python_cases
  let py_case_names := python_cases.map (·.name)
  let py_case_values := python_cases.map (·.value)
  let extras := swift_cases.filter fun sc =>
    !(py_case_names.contains sc.name) && !(py_case_values.contains sc.value)
  ⟨enum_name, fromLoop.1, [], fromLoop.2, extras⟩

/-- The per-group value-range pre-filter of `SwiftAnalyzer.analyze_changes`:
`ResponseCode` keeps extracted values `< 0x80`, `PushCode` keeps values
`>= 0x80`, `CommandCode` is not filtered. -/
def rangeFilter (t : Target) (python_cases : List EnumCase) : List EnumCase :=
  match t with
  | .commandCode => python_cases
  | .responseCode => python_cases.filter fun c => decide (c.value < 128)
  | .pushCode => python_cases.filter fun c => decide (128 ≤ c.value)

/-- Characters of the group body captured by the lazy `(.*?)\s*\}` tail of
the block regex: the text up to the first closing brace, `none` when the
input holds no closing brace (then the regex cannot match here). -/
def takeUntilBrace : List Char → Option (List Char)
  | [] => none
  | c :: cs => if c = '}' then some [] else (takeUntilBrace cs).map (fun r => c :: r)

/-- Trailing whitespace removal: the effect of the `\s*` between the lazy
body group and the closing `\}` of the block regex. -/
def stripTrailingWs (l : List Char) : List Char :=
  (l.reverse.dropWhile pyIsSpace).reverse

/-- The literal part of the block pattern of `_parse_existing_enums`:
`public enum {enum_name}: UInt8, Sendable`. -/
def enumHeaderOf (enum_name : List Char) : List Char :=
  ( "public enum ".toList) ++ enum_name ++ ( ": UInt8, Sendable".toList)

/-- One anchored attempt of the block regex
`public enum {name}: UInt8, Sendable\s*\{(.*?)\s*\}` (with `re.DOTALL`):
the literal header, optional whitespace, an opening brace, then the lazily
captured body, which by lazy-group semantics is the text up to the first
closing brace with the whitespace run immediately before that brace
stripped. -/
def matchBlockAt (hdr content : List Char) : Option (List Char) :=
  if hdr.isPrefixOf content then
    match (content.drop hdr.length).dropWhile pyIsSpace with
    | '{' :: body => (takeUntilBrace body).map stripTrailingWs
    | _ => none
  else none

/-- `re.search` for the block pattern: leftmost successful anchored match,
returning the match start index (for the `start=enum_match.start()` line
numbering) and the captured body. -/
def searchBlock (hdr : List Char) : List Char → Nat → Option (Nat × List Char)
  | [], idx =>
    match matchBlockAt hdr [] with
    | some b => some (idx, b)
    | none => none
  | c :: cs, idx =>
    match matchBlockAt hdr (c :: cs) with
    | some b => some (idx, b)
    | none => searchBlock hdr cs (idx + 1)

/-- The optional trailing-comment group `(?:\s*//\s*(.*))?` of the case
pattern, attempted at the first position the greedy value run could not
consume: it participates exactly when two slashes stand there, and then
captures the rest of the line after the greedy `\s*` run. -/
def commentOf : List Char → Option (List Char)
  | '/' :: '/' :: r => some (r.dropWhile pyIsSpace)
  | _ => none

/-- One anchored attempt of the case pattern
`case\s+(\w+)\s*=\s*([^/\n]+)(?:\s*//\s*(.*))?` on one line (lines never
contain a newline): returns the name, the raw value text of the greedy
`[^/\n]+` group, and the optional comment.  When the greedy whitespace
after `=` leaves no value character (the line ends or a slash follows),
the regex backtracks one whitespace character, which then forms the whole
value group. -/
def matchCaseAt (l : List Char) : Option (List Char × List Char × Option (List Char)) :=
  if ( "case".toList).isPrefixOf l then
    let r1 := l.drop 4
    let ws1 := r1.takeWhile pyIsSpace
    if ws1.isEmpty then none
    else
      let r2 := r1.drop ws1.length
      let nm := r2.takeWhile isWordChar
      if nm.isEmpty then none
      else
        match (r2.drop nm.length).dropWhile pyIsSpace with
        | '=' :: r4 =>
          let ws2 := r4.takeWhile pyIsSpace
          let r5 := r4.drop ws2.length
          let vRun := r5.takeWhile (fun c => decide (c ≠ '/' ∧ c ≠ '\n'))
          if ¬ vRun.isEmpty then
            some (nm, vRun, commentOf (r5.drop vRun.length))
          else
            match ws2.reverse with
            | w :: _ => some (nm, [w], commentOf r5)
            | [] => none
        | _ => none
  else none

/-- `re.search` for the case pattern on one line: leftmost match. -/
def searchCaseLine : List Char → Option (List Char × List Char × Option (List Char))
  | [] => none
  | c :: cs =>
    match matchCaseAt (c :: cs) with
    | some r => some r
    | none => searchCaseLine cs

/-- Value of a non-empty all-digit string, the accepting case of Python
`int(s)` (digit-group underscores of Python literals are not modelled; the
target file's values are plain digit runs). -/
def digitsVal (l : List Char) : Option Nat :=
  if ¬ l.isEmpty ∧ l.all isDigitA then
    some (l.foldl (fun a c => a * 10 + (c.toNat - 48)) 0)
  else none

/-- Hex digit value for `int(s, 16)`. -/
def hexDigitVal (c : Char) : Option Nat :=
  if 48 ≤ c.toNat ∧ c.toNat ≤ 57 then some (c.toNat - 48)
  else if 97 ≤ c.toNat ∧ c.toNat ≤ 102 then some (c.toNat - 87)
  else if 65 ≤ c.toNat ∧ c.toNat ≤ 70 then some (c.toNat - 55)
  else none

/-- Value of a non-empty hex-digit string. -/
def hexDigitsVal (l : List Char) : Option Nat :=
  match l with
  | [] => none
  | _ =>
    l.foldl
      (fun acc c =>
        match acc, hexDigitVal c with
        | some a, some d => some (a * 16 + d)
        | _, _ => none)
      (some 0)

/-- Python `int(s)` (base 10): optional surrounding whitespace, optional
sign, then a non-empty digit run; `none` models the `ValueError`. -/
def pyIntOfDec (s : List Char) : Option Int :=
  match pyStrip s with
  | '+' :: r => (digitsVal r).map Int.ofNat
  | '-' :: r => (digitsVal r).map fun n => -(n : Int)
  | r => (digitsVal r).map Int.ofNat

/-- Python `int(s, 16)`: optional surrounding whitespace, optional sign,
optional `0x`/`0X` prefix, then a non-empty hex-digit run. -/
def pyIntOfHex (s : List Char) : Option Int :=
  let body : List Char → Option Nat := fun r =>
    match r with
    | '0' :: 'x' :: d => hexDigitsVal d
    | '0' :: 'X' :: d => hexDigitsVal d
    | d => hexDigitsVal d
  match pyStrip s with
  | '+' :: r => (body r).map Int.ofNat
  | '-' :: r => (body r).map fun n => -(n : Int)
  | r => (body r).map Int.ofNat

/-- `SwiftAnalyzer._parse_swift_value`: strip whitespace and trailing
commas, then parse hex (`0x`/`0X` prefix) or decimal.  The Python
signature advertises `Optional[int]` but the implementation never returns
`None`: `int(...)` either succeeds or raises `ValueError`; `none` here
models that exception. -/
def _parse_swift_value (value_str : List Char) : Option Int :=
  let v := ((pyStrip value_str).reverse.dropWhile (fun c => decide (c = ','))).reverse
  if ( "0x".toList).isPrefixOf v ∨ ( "0X".toList).isPrefixOf v then pyIntOfHex v
  else pyIntOfDec v

/-- The `for line_num, line in enumerate(...)` loop over a block body's
lines in `_parse_existing_enums`.  A line matching the case pattern whose
value text cannot be parsed raises (`Except.error`), which the source
converts into a run-aborting `RuntimeError`. -/
def parseBodyLines (startIdx : Nat) : List (List Char) → Except Unit (List SwiftEnumCase)
  | [] => .ok []
  | ln :: rest =>
    match searchCaseLine ln with
    | none => parseBodyLines (startIdx + 1) rest
    | some (nm, vs, cm) =>
      match _parse_swift_value (pyStrip vs) with
      | none => .error ()
      | some v =>
        (parseBodyLines (startIdx + 1) rest).map
          (fun cs => (⟨nm, v, cm, some startIdx⟩ : SwiftEnumCase) :: cs)

/-- One group of `_parse_existing_enums`: a missing block yields the empty
case list; a found block has its body lines parsed. -/
def parseGroup (content enum_name : List Char) : Except Unit (List SwiftEnumCase) :=
  match searchBlock (enumHeaderOf enum_name) content 0 with
  | none => .ok []
  | some (startIdx, body) => parseBodyLines startIdx (pySplit '\n' body)

/-- `SwiftAnalyzer._parse_existing_enums`: parse the three fixed groups of
the target file in order; any `ValueError` from a value parse is caught by
the source's blanket handler and re-raised as a run-aborting
`RuntimeError`, modelled by `Except.error`. -/
def _parse_existing_enums (content : List Char) :
    Except Unit (List SwiftEnumCase × List SwiftEnumCase × List SwiftEnumCase) :=
  match parseGroup content ( "CommandCode".toList) with
  | .error e => .error e
  | .ok cmd =>
    match parseGroup content ( "ResponseCode".toList) with
    | .error e => .error e
    | .ok resp =>
      match parseGroup content ( "PushCode".toList) with
      | .error e => .error e
      | .ok push => .ok (cmd, resp, push)

/-- `line.count(c)` of the braces, as used by `_parse_enum_by_lines`:
opening-brace count minus closing-brace count of one line. -/
def braceDelta (l : List Char) : Int :=
  (l.count '{' : Int) - (l.count '}' : Int)

/-- The `for i, line in enumerate(lines)` loop of `_parse_enum_by_lines`:
a line containing the header substring (re)sets `start_line` and resets
the brace count to that line's own delta; once a start is set, every
later line adds its delta, and the first line bringing the count to zero
or below is `end_line`.  Returns `end_line` when the `break` fires. -/
def parseByLinesLoop (hdr : List Char) : List (List Char) → Nat → Option Int → Option Nat
  | [], _, _ => none
  | ln :: rest, i, st =>
    if hasSub hdr ln then parseByLinesLoop hdr rest (i + 1) (some (braceDelta ln))
    else
      match st with
      | none => parseByLinesLoop hdr rest (i + 1) none
      | some bc =>
        if bc + braceDelta ln ≤ 0 then some i
        else parseByLinesLoop hdr rest (i + 1) (some (bc + braceDelta ln))

/-- Python `lines.insert(i, x)`: insert before index `i`. -/
def insertAt (ls : List (List Char)) (i : Nat) (x : List Char) : List (List Char) :=
  ls.take i ++ [x] ++ ls.drop i

/-- `SwiftAnalyzer._parse_enum_by_lines`, the fallback splice path: locate
the block by its header substring and brace counting, splice the new
cases' code immediately before the closing-brace line (no re-sort); a
block not found raises a `RuntimeError`, modelled by `Except.error`. -/
def _parse_enum_by_lines (content enum_name new_cases_code : List Char) :
    Except Unit (List Char) :=
  let lines := pySplit '\n' content
  match parseByLinesLoop (enumHeaderOf enum_name) lines 0 none with
  | none => .error ()
  | some end_line => .ok (List.intercalate [ '\n'] (insertAt lines end_line new_cases_code))

/-- `SwiftAnalyzer.insert_cases_into_swift_file`.  The block pattern of
line 530, `public enum {name}: UInt8, Sendable\s*\{(.*?)\s*\}`, holds
exactly one capture group, yet line 539 reads `enum_match.group(2)`; in
Python, `group(2)` on a one-group match raises `IndexError: no such
group`.  So whenever the block regex matches, the primary merge path
raises before any of the sort/render code of lines 541-572 can run
(modelled by `Except.error`); only the regex-miss fallback
`_parse_enum_by_lines` ever produces new content. -/
def insert_cases_into_swift_file (content target_enum new_cases_code : List Char) :
    Except Unit (List Char) :=
  match searchBlock (enumHeaderOf target_enum) content 0 with
  | none => _parse_enum_by_lines content target_enum new_cases_code
  | some _ => .error ()

/-- The `('y', 'yes')` acceptance set of the interactive prompts. -/
def yesResponses : List (List Char) := [ "y".toList, "yes".toList]

/-- The processing `input(...).lower().strip()` applied to an operator
response, followed by the `in ('y', 'yes')` membership test. -/
def respYes (resp : List Char) : Bool :=
  yesResponses.contains (pyStrip (pyLowerStr resp))

/-- The default of the `--max-additions` flag and of the `max_additions`
parameter of `MeshCoreSyncApp.run`. -/
def max_additions_default : Nat := 50

/-- The flags of `MeshCoreSyncApp.run` relevant to the safety gate. -/
structure RunConfig where
  dry_run : Bool
  auto_approve : Bool
  max_additions : Nat
  deriving DecidableEq

/-- The operator's interactive answers consumed by one run: the safety
prompt of step 3.5 and the summary prompt of `_show_change_summary`. -/
structure OperatorInput where
  safetyResponse : List Char
  summaryResponse : List Char
  deriving DecidableEq

/-- Result of the modelled run: the process exit code and whether the run
reached step 5, the only step that writes the target file. -/
structure RunResult where
  exitCode : Nat
  fileMutated : Bool
  deriving DecidableEq

/-- `MeshCoreSyncApp._show_change_summary` approval outcome: `false` when
nothing changed, otherwise auto-approval or the operator's answer. -/
def _show_change_summary_approves (totalAdditions totalUpdates : Nat)
    (auto_approve : Bool) (summaryResponse : List Char) : Bool :=
  if totalAdditions = 0 ∧ totalUpdates = 0 then false
  else if auto_approve then true
  else respYes summaryResponse

/-- `MeshCoreSyncApp.run` from step 3.5 (the safety check) onward, with the
totals over the analyses already computed.  `applyOk` abstracts the outcome
of `_apply_changes` of step 5 (validation plus write); every earlier exit
returns code 0 with the target file untouched. -/
def run_from_safety_check (cfg : RunConfig) (totalAdditions totalUpdates : Nat)
    (inp : OperatorInput) (applyOk : Bool) : RunResult :=
  if cfg.max_additions < totalAdditions ∧ cfg.auto_approve = false
      ∧ respYes inp.safetyResponse = false then
    ⟨0, false⟩
  else if ¬ _show_change_summary_approves totalAdditions totalUpdates
      cfg.auto_approve inp.summaryResponse then
    ⟨0, false⟩
  else if cfg.dry_run then ⟨0, false⟩
  else if applyOk then ⟨0, true⟩
  else ⟨1, true⟩

/-- The three group names iterated by `_parse_existing_enums` and
`analyze_changes`. -/
def groupNames : List (List Char) :=
  [ "CommandCode".toList, "ResponseCode".toList, "PushCode".toList]

/-- Number of occurrences of the case key `k = (normalizedName, value)` in
a group's case list. -/
def keyCount (l : List EnumCase) (k : List Char × Int) : Nat :=
  l.countP fun c => decide ((c.name, c.value) = k)

/-- Invariant of the `map_to_swift_enums` loop state: every key occurs at
most once in every group list, and a key occurring in a group list has
been recorded in the `seen_cases` set. -/
def MapInv (st : SwiftEnumMap × List (List Char × Int)) : Prop :=
  ∀ g k, keyCount (groupOf st.1 g) k ≤ 1 ∧ (1 ≤ keyCount (groupOf st.1 g) k → k ∈ st.2)

/-- Concrete extracted case matching `exSwiftCovered` by normalized name
and value, used to witness C1. -/
def exPyCovered : EnumCase :=
  ⟨ "appStart".toList, 1, "meshcore/packets.py".toList, 3, "APP_START".toList⟩

/-- Concrete existing Swift case used to witness C1. -/
def exSwiftCovered : SwiftEnumCase := ⟨ "appStart".toList, 1, none, none⟩

/-- Concrete relative source path used by the extraction witnesses. -/
def relPath0 : List Char := "meshcore/packets.py".toList

/-- Concrete `PacketType(IntEnum)` class with two literal integer cases,
used to witness C5 and C10. -/
def cls0 : PyClassDef :=
  ⟨ "PacketType".toList, [PyBaseExpr.nameB ( "IntEnum".toList)],
    [PyStmt.assignS ⟨[PyTarget.nameT ( "ADVERT".toList)], PyExpr.constInt 1, 5⟩,
      PyStmt.assignS ⟨[PyTarget.nameT ( "TRACE".toList)], PyExpr.constInt 2, 6⟩]⟩

/-- The `EnumDefinition` the extractor produces from `cls0`. -/
def d0 : EnumDefinition :=
  ⟨ "PacketType".toList,
    [⟨ "advert".toList, 1, relPath0, 5, "ADVERT".toList⟩,
      ⟨ "trace".toList, 2, relPath0, 6, "TRACE".toList⟩],
    "IntEnum".toList, relPath0⟩

/-- Concrete assignment of a function call, ignored by case extraction. -/
def asgCall : PyAssign := ⟨[PyTarget.nameT ( "AUTO".toList)], PyExpr.callE, 9⟩

/-- Concrete `PacketType` class with a single qualifying case, discarded by
the two-case minimum. -/
def clsSmall : PyClassDef :=
  ⟨ "PacketType".toList, [PyBaseExpr.nameB ( "IntEnum".toList)],
    [PyStmt.assignS ⟨[PyTarget.nameT ( "ADVERT".toList)], PyExpr.constInt 1, 5⟩]⟩

/-- Concrete response-like definition with a value at or above `0x80`,
used to witness C4. -/
def dResp : EnumDefinition :=
  ⟨ "ResponseType".toList,
    [⟨ "ok".toList, 1, relPath0, 4, "OK".toList⟩,
      ⟨ "pushAdvert".toList, 133, relPath0, 5, "PUSH_ADVERT".toList⟩],
    "IntEnum".toList, relPath0⟩

/-- Concrete target-file text containing none of the three enum blocks. -/
def emptyTarget : List Char := "// no enums here".toList

/-- Concrete target-file text with a `CommandCode` block whose single case
line carries an unparsable value. -/
def badTarget : List Char :=
  "public enum CommandCode: UInt8, Sendable \x7b\ncase x = zz\n\x7d".toList

/-- Concrete target-file text holding a well-formed `CommandCode` block,
the failing input of C6 (the block regex matches it). -/
def goodTarget : List Char :=
  "public enum CommandCode: UInt8, Sendable \x7b\n    case appStart = 1\n\x7d".toList

/-- Concrete generated case code passed to the merge step of C6. -/
def newCasesCode0 : List Char := "    case sendMsg = 0x02".toList

/-! ### Helper lemmas -/

theorem char_toNat_ofNat {n : Nat} (h : n < 55296) : (Char.ofNat n).toNat = n := by
  have hv : n.isValidChar := Or.inl h
  simp [Char.ofNat, hv, Char.ofNatAux, Char.toNat, UInt32.toNat, BitVec.toNat_ofNatLt]

theorem char_toNat_lt (c : Char) : c.toNat < 1114112 := by
  have h := c.valid
  rcases h with h | h
  · exact Nat.lt_trans h (by decide)
  · exact h.2

theorem pyToLower_eq_self {c : Char} (h : isUpperA c = false) : pyToLower c = c := by
  unfold pyToLower
  unfold isUpperA at h
  simp only [decide_eq_false_iff_not] at h
  exact if_neg h

theorem toNat_pyToLower_of_upper {c : Char} (h : 65 ≤ c.toNat ∧ c.toNat ≤ 90) :
    (pyToLower c).toNat = c.toNat + 32 := by
  unfold pyToLower
  rw [if_pos h]
  exact char_toNat_ofNat (by omega)

theorem isUpperA_pyToLower (c : Char) : isUpperA (pyToLower c) = false := by
  by_cases h : 65 ≤ c.toNat ∧ c.toNat ≤ 90
  · have ht : (pyToLower c).toNat = c.toNat + 32 := toNat_pyToLower_of_upper h
    unfold isUpperA
    simp only [decide_eq_false_iff_not]
    omega
  · unfold pyToLower
    rw [if_neg h]
    unfold isUpperA
    simp only [decide_eq_false_iff_not]
    exact h

theorem pyToLower_ne_underscore {c : Char} (h : c ≠ '_') : pyToLower c ≠ '_' := by
  unfold pyToLower
  split
  · intro heq
    have hu : ('_' : Char).toNat = 95 := by decide
    have := congrArg Char.toNat heq
    rw [char_toNat_ofNat (by omega), hu] at this
    omega
  · exact h

theorem pyToUpper_ne_underscore {c : Char} (h : c ≠ '_') : pyToUpper c ≠ '_' := by
  unfold pyToUpper
  split
  · intro heq
    have hu : ('_' : Char).toNat = 95 := by decide
    have := congrArg Char.toNat heq
    rw [char_toNat_ofNat (by omega), hu] at this
    omega
  · exact h

theorem pySplit_ne_nil (sep : Char) (l : List Char) : pySplit sep l ≠ [] := by
  induction l with
  | nil => simp [pySplit]
  | cons c cs ih =>
    unfold pySplit
    split
    · simp
    · cases hsplit : pySplit sep cs with
      | nil => simp
      | cons p ps => simp

theorem sep_not_mem_of_mem_pySplit (sep : Char) (l : List Char) :
    ∀ p ∈ pySplit sep l, sep ∉ p := by
  induction l with
  | nil =>
    intro p hp
    simp [pySplit] at hp
    simp [hp]
  | cons c cs ih =>
    intro p hp
    unfold pySplit at hp
    split at hp
    · rcases List.mem_cons.mp hp with h | h
      · simp [h]
      · exact ih p h
    · rename_i hne
      cases hsplit : pySplit sep cs with
      | nil => exact absurd hsplit (pySplit_ne_nil sep cs)
      | cons q qs =>
        rw [hsplit] at hp
        rcases List.mem_cons.mp hp with h | h
        · subst h
          intro hmem
          rcases List.mem_cons.mp hmem with h | h
          · exact hne h.symm
          · exact ih q (by rw [hsplit]; exact List.mem_cons_self q qs) h
        · exact ih p (by rw [hsplit]; exact List.mem_cons_of_mem q h)

theorem pySplit_of_not_mem {sep : Char} {l : List Char} (h : sep ∉ l) :
    pySplit sep l = [l] := by
  induction l with
  | nil => rfl
  | cons c cs ih =>
    have hc : c ≠ sep := fun hcs => h (hcs ▸ List.mem_cons_self c cs)
    have hcs : sep ∉ cs := fun hm => h (List.mem_cons_of_mem c hm)
    unfold pySplit
    rw [if_neg hc, ih hcs]

theorem underscore_not_mem_normalize (s : List Char) : '_' ∉ _normalize_name s := by
  unfold _normalize_name
  cases hsplit : pySplit '_' (pyLowerStr s) with
  | nil => exact absurd hsplit (pySplit_ne_nil _ _)
  | cons p ps =>
    have hpieces := sep_not_mem_of_mem_pySplit '_' (pyLowerStr s)
    rw [hsplit] at hpieces
    intro hmem
    rcases List.mem_append.mp hmem with h | h
    · exact hpieces p (List.mem_cons_self p ps) h
    · rcases List.mem_flatten.mp h with ⟨q, hq, hcq⟩
      rcases List.mem_map.mp hq with ⟨q0, hq0, rfl⟩
      have hq0nm : '_' ∉ q0 := hpieces q0 (List.mem_cons_of_mem p hq0)
      cases q0 with
      | nil => simp [pyCapitalize] at hcq
      | cons c0 cs0 =>
        simp only [pyCapitalize] at hcq
        rcases List.mem_cons.mp hcq with h | h
        · exact pyToUpper_ne_underscore
            (fun hc0 => hq0nm (hc0 ▸ List.mem_cons_self c0 cs0)) h.symm
        · rcases List.mem_map.mp h with ⟨c1, hc1, hlow⟩
          exact pyToLower_ne_underscore
            (fun hc1e => hq0nm (hc1e ▸ List.mem_cons_of_mem c0 hc1)) hlow

theorem map_pyToLower_fix {l : List Char} (h : ∀ c ∈ l, isUpperA c = false) :
    l.map pyToLower = l := by
  induction l with
  | nil => rfl
  | cons c cs ih =>
    simp only [List.map_cons]
    rw [pyToLower_eq_self (h c (List.mem_cons_self c cs)),
      ih (fun x hx => h x (List.mem_cons_of_mem c hx))]

theorem normalize_fix {y : List Char} (h1 : ∀ c ∈ y, isUpperA c = false)
    (h2 : '_' ∉ y) : _normalize_name y = y := by
  unfold _normalize_name
  have hl : pyLowerStr y = y := map_pyToLower_fix h1
  rw [hl, pySplit_of_not_mem h2]
  simp

/-! ### Claim C2 -/

/-- C2, counterexample: `_normalize_name` is not idempotent for every input
string.  At the concrete input `"A_B"` the output is `"aB"`, and
renormalizing that output lowercases the camel hump, giving `"ab"`. -/
theorem normalize_name_not_idempotent_at_A_B :
    _normalize_name (_normalize_name ( "A_B".toList)) ≠ _normalize_name ( "A_B".toList) := by
  decide

/-- C2, amended: `_normalize_name` is deterministic (equal inputs give
equal outputs), and it is idempotent on every input whose output contains
no ASCII uppercase letter (in particular on every single-token name); for
inputs with several non-empty underscore-separated tokens the capitalized
camel humps of the output are lowercased again by renormalization, so full
idempotence fails. -/
theorem normalize_name_deterministic_and_conditionally_idempotent :
    (∀ s t : List Char, s = t → _normalize_name s = _normalize_name t)
    ∧ ∀ s : List Char, (∀ c ∈ _normalize_name s, isUpperA c = false) →
        _normalize_name (_normalize_name s) = _normalize_name s := by
  constructor
  · intro s t h
    rw [h]
  · intro s h
    exact normalize_fix h (underscore_not_mem_normalize s)

/-- Witness for the amended C2 at the concrete inputs `"SEND_MSG"` (for
determinism) and `"FOO"` (whose output `"foo"` has no uppercase letter). -/
theorem normalize_name_deterministic_and_conditionally_idempotent_witness :
    _normalize_name ( "SEND_MSG".toList) = _normalize_name ( "SEND_MSG".toList)
    ∧ _normalize_name (_normalize_name ( "FOO".toList)) = _normalize_name ( "FOO".toList) :=
  ⟨normalize_name_deterministic_and_conditionally_idempotent.1 _ _ rfl,
    normalize_name_deterministic_and_conditionally_idempotent.2 ( "FOO".toList) (by decide)⟩

/-! ### Claim C1 -/

theorem diffLoop_eq (sw : List SwiftEnumCase) (pc : List EnumCase) :
    diffLoop sw pc =
      (pc.filter (fun x => decide (classifyCase x sw = DiffOutcome.addition)),
        pc.filter (fun x => decide (classifyCase x sw = DiffOutcome.duplicate))) := by
  induction pc with
  | nil => rfl
  | cons py rest ih =>
    by_cases hcov : coveredB py sw = true
    · have hcl : classifyCase py sw = DiffOutcome.covered := by simp [classifyCase, hcov]
      simp [diffLoop, hcov, ih, List.filter_cons, hcl]
    · by_cases hval : valueMatchB py sw = true
      · have hcl : classifyCase py sw = DiffOutcome.duplicate := by
          simp [classifyCase, hcov, hval]
        simp [diffLoop, hcov, hval, ih, List.filter_cons, hcl]
      · have hcl : classifyCase py sw = DiffOutcome.addition := by
          simp [classifyCase, hcov, hval]
        simp [diffLoop, hcov, hval, ih, List.filter_cons, hcl]

theorem analyze_additions_eq (enum_name : List Char) (pc : List EnumCase)
    (sw : List SwiftEnumCase) :
    (_analyze_enum_changes enum_name pc sw).additions =
      pc.filter (fun x => decide (classifyCase x sw = DiffOutcome.addition)) := by
  simp [_analyze_enum_changes, diffLoop_eq]

theorem analyze_duplicates_eq (enum_name : List Char) (pc : List EnumCase)
    (sw : List SwiftEnumCase) :
    (_analyze_enum_changes enum_name pc sw).duplicates =
      pc.filter (fun x => decide (classifyCase x sw = DiffOutcome.duplicate)) := by
  simp [_analyze_enum_changes, diffLoop_eq]

/-- C1: the per-case `if`/`elif`/`else` chain of `_analyze_enum_changes`
places every extracted case of a group into exactly one of the three
outcomes — covered (skipped: in neither output list), duplicate, or
addition — and the covered check (normalized-name plus value match) runs
before the value-only duplicate check, so a case matching an existing case
by both name and value is classified covered, never duplicate. -/
theorem diff_partition_and_tiebreak (enum_name : List Char) (python_cases : List EnumCase)
    (swift_cases : List SwiftEnumCase) (c : EnumCase) (hc : c ∈ python_cases) :
    ((classifyCase c swift_cases = DiffOutcome.covered
        ∧ c ∉ (_analyze_enum_changes enum_name python_cases swift_cases).additions
        ∧ c ∉ (_analyze_enum_changes enum_name python_cases swift_cases).duplicates)
      ∨ (classifyCase c swift_cases = DiffOutcome.duplicate
        ∧ c ∈ (_analyze_enum_changes enum_name python_cases swift_cases).duplicates
        ∧ c ∉ (_analyze_enum_changes enum_name python_cases swift_cases).additions)
      ∨ (classifyCase c swift_cases = DiffOutcome.addition
        ∧ c ∈ (_analyze_enum_changes enum_name python_cases swift_cases).additions
        ∧ c ∉ (_analyze_enum_changes enum_name python_cases swift_cases).duplicates))
    ∧ (coveredB c swift_cases = true → classifyCase c swift_cases = DiffOutcome.covered) := by
  rw [analyze_additions_eq, analyze_duplicates_eq]
  constructor
  · cases h : classifyCase c swift_cases with
    | covered =>
      refine Or.inl ⟨rfl, ?_, ?_⟩ <;>
        · intro hmem
          have := (List.mem_filter.mp hmem).2
          rw [h] at this
          simp at this
    | duplicate =>
      refine Or.inr (Or.inl ⟨rfl, ?_, ?_⟩)
      · exact List.mem_filter.mpr ⟨hc, by rw [h]; simp⟩
      · intro hmem
        have := (List.mem_filter.mp hmem).2
        rw [h] at this
        simp at this
    | addition =>
      refine Or.inr (Or.inr ⟨rfl, ?_, ?_⟩)
      · exact List.mem_filter.mpr ⟨hc, by rw [h]; simp⟩
      · intro hmem
        have := (List.mem_filter.mp hmem).2
        rw [h] at this
        simp at this
  · intro hcov
    simp [classifyCase, hcov]

/-- Witness for C1 at a concrete group: one extracted case matching an
existing case by normalized name and value. -/
theorem diff_partition_and_tiebreak_witness :
    ((classifyCase exPyCovered [exSwiftCovered] = DiffOutcome.covered
        ∧ exPyCovered ∉ (_analyze_enum_changes ( "ResponseCode".toList) [exPyCovered]
            [exSwiftCovered]).additions
        ∧ exPyCovered ∉ (_analyze_enum_changes ( "ResponseCode".toList) [exPyCovered]
            [exSwiftCovered]).duplicates)
      ∨ (classifyCase exPyCovered [exSwiftCovered] = DiffOutcome.duplicate
        ∧ exPyCovered ∈ (_analyze_enum_changes ( "ResponseCode".toList) [exPyCovered]
            [exSwiftCovered]).duplicates
        ∧ exPyCovered ∉ (_analyze_enum_changes ( "ResponseCode".toList) [exPyCovered]
            [exSwiftCovered]).additions)
      ∨ (classifyCase exPyCovered [exSwiftCovered] = DiffOutcome.addition
        ∧ exPyCovered ∈ (_analyze_enum_changes ( "ResponseCode".toList) [exPyCovered]
            [exSwiftCovered]).additions
        ∧ exPyCovered ∉ (_analyze_enum_changes ( "ResponseCode".toList) [exPyCovered]
            [exSwiftCovered]).duplicates))
    ∧ (coveredB exPyCovered [exSwiftCovered] = true →
        classifyCase exPyCovered [exSwiftCovered] = DiffOutcome.covered) :=
  diff_partition_and_tiebreak ( "ResponseCode".toList) [exPyCovered] [exSwiftCovered]
    exPyCovered (by decide)

/-! ### Claim C3 -/

theorem detect_nodup (d : EnumDefinition) : (_detect_target_enums_dynamic d).Nodup := by
  unfold _detect_target_enums_dynamic
  dsimp only
  split
  · simp
  · split
    · split <;> simp
    · split
      · simp
      · split
        · simp
        · split
          · simp
          · split
            · simp
            · split <;> simp

theorem groupOf_addCase (m : SwiftEnumMap) (t : Target) (c : EnumCase) (g : Target) :
    groupOf (addCase m t c) g = if g = t then groupOf m g ++ [c] else groupOf m g := by
  cases t <;> cases g <;> simp [addCase, groupOf]

theorem groupOf_addTargets (m : SwiftEnumMap) (ts : List Target) (c : EnumCase)
    (hnd : ts.Nodup) (g : Target) :
    groupOf (addTargets m ts c) g = groupOf m g ++ (if g ∈ ts then [c] else []) := by
  induction ts generalizing m with
  | nil => simp [addTargets]
  | cons t rest ih =>
    have hndr : rest.Nodup := (List.nodup_cons.mp hnd).2
    have htn : t ∉ rest := (List.nodup_cons.mp hnd).1
    have hstep : addTargets m (t :: rest) c = addTargets (addCase m t c) rest c := rfl
    rw [hstep, ih (addCase m t c) hndr, groupOf_addCase]
    by_cases hg : g = t
    · subst hg
      have : g ∉ rest := htn
      simp [this]
    · simp [hg, List.mem_cons]

theorem keyCount_append (l1 l2 : List EnumCase) (k : List Char × Int) :
    keyCount (l1 ++ l2) k = keyCount l1 k + keyCount l2 k := by
  unfold keyCount
  exact List.countP_append _ _ _

theorem mapCaseStep_preserves (ts : List Target) (hnd : ts.Nodup) (c : EnumCase)
    (st : SwiftEnumMap × List (List Char × Int)) (h : MapInv st) :
    MapInv (mapCaseStep ts st c) := by
  unfold mapCaseStep
  split
  · exact h
  · rename_i hnotseen
    intro g k
    rw [groupOf_addTargets st.1 ts c hnd g, keyCount_append]
    by_cases hk : ((c.name, c.value) : List Char × Int) = k
    · have hzero : keyCount (groupOf st.1 g) k = 0 := by
        by_contra hne
        have h1 : 1 ≤ keyCount (groupOf st.1 g) k := Nat.one_le_iff_ne_zero.mpr hne
        exact hnotseen (hk ▸ (h g k).2 h1)
      have htail : keyCount (if g ∈ ts then [c] else []) k ≤ 1 := by
        split <;> simp [keyCount, List.countP_cons, hk]
      constructor
      · omega
      · intro _
        exact List.mem_append.mpr (Or.inr (hk ▸ List.mem_singleton.mpr rfl))
    · have htail : keyCount (if g ∈ ts then [c] else []) k = 0 := by
        split <;> simp [keyCount, List.countP_cons, hk]
      rw [htail]
      have hle := (h g k).1
      constructor
      · omega
      · intro h1
        exact List.mem_append.mpr (Or.inl ((h g k).2 (by omega)))

theorem foldl_preserves_inv {α β : Type} (P : β → Prop) (f : β → α → β)
    (hstep : ∀ b a, P b → P (f b a)) :
    ∀ (l : List α) (b : β), P b → P (l.foldl f b) := by
  intro l
  induction l with
  | nil => intro b hb; exact hb
  | cons a rest ih => intro b hb; exact ih (f b a) (hstep b a hb)

theorem map_to_swift_enums_inv (enums : List EnumDefinition) :
    MapInv (enums.foldl
      (fun st d => d.cases.foldl (mapCaseStep (_detect_target_enums_dynamic d)) st)
      (⟨[], [], []⟩, [])) := by
  apply foldl_preserves_inv
  · intro st d hst
    exact foldl_preserves_inv _ _
      (fun b a hb => mapCaseStep_preserves _ (detect_nodup d) a b hb) d.cases st hst
  · intro g k
    constructor
    · cases g <;> simp [keyCount, groupOf]
    · cases g <;> simp [keyCount, groupOf]

/-- C3: within one run of `map_to_swift_enums`, a case key
`(normalizedName, value)` is appended to each target group's list at most
once, even when the same key occurs in several extracted definitions: a
key already present in the run-wide `seen_cases` set is dropped before any
group assignment. -/
theorem map_to_swift_enums_key_at_most_once (enums : List EnumDefinition)
    (k : List Char × Int) :
    keyCount (map_to_swift_enums enums).commandCode k ≤ 1
    ∧ keyCount (map_to_swift_enums enums).responseCode k ≤ 1
    ∧ keyCount (map_to_swift_enums enums).pushCode k ≤ 1 := by
  have h := map_to_swift_enums_inv enums
  exact ⟨(h Target.commandCode k).1, (h Target.responseCode k).1, (h Target.pushCode k).1⟩

/-! ### Claims C4, C5, C10 -/

/-- C4: when a definition's lowercased name contains no command-like token
but contains a response/event-like token, `_detect_target_enums_dynamic`
routes the entire definition to the push group exactly when some case
value is at least `0x80`, and to the response group otherwise; the
decision at this rule is a single list for the whole definition, never a
per-case split. -/
theorem detect_response_like_routing (d : EnumDefinition)
    (hcmd : ([ "req".toList, "cmd".toList, "command".toList, "binary".toList].any
      (fun k => hasSub k (pyLowerStr d.name))) = false)
    (hresp : ([ "resp".toList, "response".toList, "event".toList].any
      (fun k => hasSub k (pyLowerStr d.name))) = true) :
    _detect_target_enums_dynamic d =
      if (d.cases.map (·.value)).any (fun v => decide (128 ≤ v)) then [Target.pushCode]
      else [Target.responseCode] := by
  unfold _detect_target_enums_dynamic
  dsimp only
  rw [if_neg (by rw [hcmd]; exact Bool.false_ne_true), if_pos hresp]

/-- Witness for C4 at a concrete response-like definition carrying a value
at or above `0x80` (so the whole definition routes to the push group). -/
theorem detect_response_like_routing_witness :
    _detect_target_enums_dynamic dResp =
      if (dResp.cases.map (·.value)).any (fun v => decide (128 ≤ v)) then [Target.pushCode]
      else [Target.responseCode] :=
  detect_response_like_routing dResp (by decide) (by decide)

theorem extract_some_spec {c : PyClassDef} {rel : List Char} {d : EnumDefinition}
    (h : _extract_int_enum c rel = some d) :
    d.cases = c.body.filterMap (caseOfStmt rel) ∧ 2 ≤ d.cases.length := by
  unfold _extract_int_enum at h
  split at h
  · exact absurd h (by simp)
  · dsimp only at h
    split at h
    · exact absurd h (by simp)
    · split at h
      · exact absurd h (by simp)
      · split at h
        · exact absurd h (by simp)
        · rename_i hlen _ _
          have hd := Option.some.inj h
          constructor
          · rw [← hd]
          · rw [← hd]
            dsimp only
            omega

/-- C5: for every accepted class (one the extractor returns a definition
for, which requires at least 2 qualifying cases), the extracted case list
is exactly the in-order `filterMap` of the body's simple integer-literal
assignments; assignments of calls, tuples, or non-integer constants
produce no case; and a class whose qualifying cases number fewer than 2 is
discarded. -/
theorem extraction_exact :
    (∀ (c : PyClassDef) (rel : List Char) (d : EnumDefinition),
      _extract_int_enum c rel = some d →
      d.cases = c.body.filterMap (caseOfStmt rel) ∧ 2 ≤ d.cases.length)
    ∧ (∀ (a : PyAssign) (rel : List Char),
      a.value = PyExpr.callE ∨ a.value = PyExpr.tupleE ∨ a.value = PyExpr.constNonInt →
      _extract_enum_case a rel = none)
    ∧ (∀ (c : PyClassDef) (rel : List Char),
      (c.body.filterMap (caseOfStmt rel)).length < 2 → _extract_int_enum c rel = none) := by
  refine ⟨fun c rel d h => extract_some_spec h, ?_, ?_⟩
  · intro a rel h
    rcases a with ⟨ts, v, ln⟩
    rcases h with h | h | h <;>
    · dsimp only at h
      subst h
      cases ts with
      | nil => rfl
      | cons t ts2 =>
        cases t with
        | nameT id => cases ts2 with | nil => rfl | cons u us => rfl
        | otherT => cases ts2 with | nil => rfl | cons u us => rfl
  · intro c rel h
    unfold _extract_int_enum
    split
    · rfl
    · dsimp only
      rw [if_pos h]

/-- Witness for C5: the concrete `PacketType` class `cls0` extracts to
`d0` with its two literal cases in order; a call-valued assignment is
ignored; the one-case class `clsSmall` is discarded. -/
theorem extraction_exact_witness :
    (d0.cases = cls0.body.filterMap (caseOfStmt relPath0) ∧ 2 ≤ d0.cases.length)
    ∧ _extract_enum_case asgCall relPath0 = none
    ∧ _extract_int_enum clsSmall relPath0 = none :=
  ⟨extraction_exact.1 cls0 relPath0 d0 (by decide),
    extraction_exact.2.1 asgCall relPath0 (Or.inl rfl),
    extraction_exact.2.2 clsSmall relPath0 (by decide)⟩

theorem detect_ne_nil (d : EnumDefinition) (hne : d.cases.map (·.value) ≠ []) :
    _detect_target_enums_dynamic d ≠ [] := by
  unfold _detect_target_enums_dynamic
  dsimp only
  split
  · simp
  · split
    · split <;> simp
    · split
      · simp
      · split
        · rename_i hcond
          rw [Bool.and_eq_true] at hcond
          exact absurd (List.isEmpty_iff.mp hcond.2) hne
        · split
          · rename_i hcond
            exact absurd (List.isEmpty_iff.mp hcond) hne
          · split
            · simp
            · split <;> simp

/-- C10: every definition the extractor produces has at least 2 cases,
hence a non-empty value list, so the classifier's two empty-values
branches cannot fire and classification returns at least one target
group. -/
theorem extracted_definition_always_classified (c : PyClassDef) (rel : List Char)
    (d : EnumDefinition) (h : _extract_int_enum c rel = some d) :
    2 ≤ d.cases.length ∧ d.cases.map (·.value) ≠ []
    ∧ _detect_target_enums_dynamic d ≠ [] := by
  obtain ⟨hcases, hlen⟩ := extract_some_spec h
  have hne : d.cases.map (·.value) ≠ [] := by
    intro hmap
    have : d.cases = [] := List.map_eq_nil_iff.mp hmap
    rw [this] at hlen
    simp at hlen
  exact ⟨hlen, hne, detect_ne_nil d hne⟩

/-- Witness for C10 at the concrete class `cls0`, which extracts to `d0`. -/
theorem extracted_definition_always_classified_witness :
    2 ≤ d0.cases.length ∧ d0.cases.map (·.value) ≠ []
    ∧ _detect_target_enums_dynamic d0 ≠ [] :=
  extracted_definition_always_classified cls0 relPath0 d0 (by decide)

/-! ### Claim C7 -/

/-- C7: the `--max-additions` default is 50, and when the total number of
additions exceeds the threshold with auto-approve off and the operator
declines the safety prompt, the run returns exit code 0 (success) without
reaching the file-mutating apply step. -/
theorem safety_gate_decline_aborts_cleanly :
    max_additions_default = 50
    ∧ ∀ (cfg : RunConfig) (totalAdditions totalUpdates : Nat) (inp : OperatorInput)
        (applyOk : Bool),
      cfg.max_additions < totalAdditions →
      cfg.auto_approve = false →
      respYes inp.safetyResponse = false →
      run_from_safety_check cfg totalAdditions totalUpdates inp applyOk =
        ⟨0, false⟩ := by
  refine ⟨rfl, ?_⟩
  intro cfg totalAdditions totalUpdates inp applyOk h1 h2 h3
  unfold run_from_safety_check
  rw [if_pos ⟨h1, h2, h3⟩]

/-- Witness for C7: 60 additions against the default threshold of 50, no
auto-approve, operator answers `n`. -/
theorem safety_gate_decline_aborts_cleanly_witness :
    run_from_safety_check ⟨true, false, max_additions_default⟩ 60 0
      ⟨ "n".toList, "y".toList⟩ true = ⟨0, false⟩ :=
  safety_gate_decline_aborts_cleanly.2 ⟨true, false, max_additions_default⟩ 60 0
    ⟨ "n".toList, "y".toList⟩ true (by decide) rfl (by decide)

/-! ### Claim C6 -/

/-- C6: the claim describes the regenerated block body of the primary
merge path, but the code cannot execute that path: the block pattern of
line 530 holds exactly one capture group while line 539 reads
`enum_match.group(2)`, which raises `IndexError` the moment the block
regex matches.  At a concrete well-formed target holding a `CommandCode`
block, with one addition to insert, the regex does match and
`insert_cases_into_swift_file` aborts instead of rendering any body. -/
theorem insert_cases_crashes_on_matching_block :
    searchBlock (enumHeaderOf ( "CommandCode".toList)) goodTarget 0 ≠ none
    ∧ insert_cases_into_swift_file goodTarget ( "CommandCode".toList) newCasesCode0 =
        Except.error () :=
  ⟨by decide, rfl⟩

/-! ### Claim C8 -/

/-- C8: when one of the three fixed enum blocks is absent from the target
text, the parser yields the empty case list for that group without any
error, and every group component of a successful aggregate parse is
exactly that group's own independent parse, so the other groups are
unaffected. -/
theorem parse_missing_block_empty (content enum_name : List Char)
    (_hmem : enum_name ∈ groupNames)
    (habs : searchBlock (enumHeaderOf enum_name) content 0 = none) :
    parseGroup content enum_name = Except.ok []
    ∧ ∀ t, _parse_existing_enums content = Except.ok t →
        parseGroup content ( "CommandCode".toList) = Except.ok t.1
        ∧ parseGroup content ( "ResponseCode".toList) = Except.ok t.2.1
        ∧ parseGroup content ( "PushCode".toList) = Except.ok t.2.2 := by
  constructor
  · unfold parseGroup
    rw [habs]
  · intro t ht
    unfold _parse_existing_enums at ht
    split at ht
    · exact absurd ht (by simp)
    · split at ht
      · exact absurd ht (by simp)
      · split at ht
        · exact absurd ht (by simp)
        · have hinj := Except.ok.inj ht
          subst hinj
          refine ⟨?_, ?_, ?_⟩ <;> assumption

/-- Witness for C8: a target text with no enum block at all parses to
three empty case lists without error. -/
theorem parse_missing_block_empty_witness :
    parseGroup emptyTarget ( "CommandCode".toList) = Except.ok []
    ∧ parseGroup emptyTarget ( "ResponseCode".toList) = Except.ok []
    ∧ parseGroup emptyTarget ( "PushCode".toList) = Except.ok [] := by
  have h := parse_missing_block_empty emptyTarget ( "CommandCode".toList)
    (by decide) (by rfl)
  exact ⟨h.1, (h.2 ([], [], []) (by rfl)).2.1, (h.2 ([], [], []) (by rfl)).2.2⟩

/-! ### Claim C9 -/

theorem parseBodyLines_error : ∀ (lines : List (List Char)) (s : Nat) (ln : List Char),
    ln ∈ lines → ∀ nm vs cm, searchCaseLine ln = some (nm, vs, cm) →
    _parse_swift_value (pyStrip vs) = none → parseBodyLines s lines = Except.error () := by
  intro lines
  induction lines with
  | nil =>
    intro s ln h
    cases h
  | cons l rest ih =>
    intro s ln hln nm vs cm hm hv
    rcases List.mem_cons.mp hln with rfl | hmem
    · simp [parseBodyLines, hm, hv]
    · unfold parseBodyLines
      cases hsc : searchCaseLine l with
      | none =>
        simp only [hsc]
        exact ih (s + 1) ln hmem nm vs cm hm hv
      | some r =>
        rcases r with ⟨nm2, vs2, cm2⟩
        simp only [hsc]
        cases hpv : _parse_swift_value (pyStrip vs2) with
        | none => simp only [hpv]
        | some v =>
          simp only [hpv, ih (s + 1) ln hmem nm vs cm hm hv]
          rfl

theorem parseGroup_error_of_bad_line (content g : List Char) (si : Nat)
    (body ln nm vs : List Char) (cm : Option (List Char))
    (hfind : searchBlock (enumHeaderOf g) content 0 = some (si, body))
    (hln : ln ∈ pySplit '\n' body)
    (hm : searchCaseLine ln = some (nm, vs, cm))
    (hv : _parse_swift_value (pyStrip vs) = none) :
    parseGroup content g = Except.error () := by
  unfold parseGroup
  rw [hfind]
  exact parseBodyLines_error (pySplit '\n' body) si ln hln nm vs cm hm hv

/-- C9, amended: value parsing of the target file is partial, but only for
lines the parser examines: for any target text in which a recognized enum
block's body contains a line matching the case-declaration shape whose
value text is neither a valid decimal integer nor a 0x-prefixed
hexadecimal integer, parsing the target file raises a run-aborting error
rather than skipping the line or degrading to an empty list.  (A
case-shaped line with a bad value lying outside every recognized block is
never examined and raises nothing.) -/
theorem bad_value_in_block_aborts (content g : List Char) (hg : g ∈ groupNames)
    (si : Nat) (body ln nm vs : List Char) (cm : Option (List Char))
    (hfind : searchBlock (enumHeaderOf g) content 0 = some (si, body))
    (hln : ln ∈ pySplit '\n' body)
    (hm : searchCaseLine ln = some (nm, vs, cm))
    (hv : _parse_swift_value (pyStrip vs) = none) :
    _parse_existing_enums content = Except.error () := by
  have hpg : parseGroup content g = Except.error () :=
    parseGroup_error_of_bad_line content g si body ln nm vs cm hfind hln hm hv
  have hcases : g = ( "CommandCode".toList) ∨ g = ( "ResponseCode".toList)
      ∨ g = ( "PushCode".toList) := by
    simpa [groupNames] using hg
  unfold _parse_existing_enums
  rcases hcases with rfl | rfl | rfl
  · split
    · rfl
    · rename_i cmd hcmd
      exact absurd (hpg.symm.trans hcmd) (by simp)
  · split
    · rfl
    · split
      · rfl
      · rename_i resp hresp
        exact absurd (hpg.symm.trans hresp) (by simp)
  · split
    · rfl
    · split
      · rfl
      · split
        · rfl
        · rename_i push hpush
          exact absurd (hpg.symm.trans hpush) (by simp)

/-- C9, counterexample to the claim as stated: a target file consisting of
the single case-shaped line `case x = zz` (an invalid value) but no
recognized enum block parses without any error, yielding three empty
lists — the bad line is outside every block, so its value is never
parsed. -/
theorem bad_value_outside_blocks_no_error :
    searchCaseLine ( "case x = zz".toList) = some ( "x".toList, "zz".toList, none)
    ∧ _parse_swift_value (pyStrip ( "zz".toList)) = none
    ∧ _parse_existing_enums ( "case x = zz".toList) = Except.ok ([], [], []) :=
  ⟨rfl, rfl, rfl⟩

/-- Witness for the amended C9: a `CommandCode` block whose body holds the
case line `case x = zz` makes the whole parse abort. -/
theorem bad_value_in_block_aborts_witness :
    _parse_existing_enums badTarget = Except.error () :=
  bad_value_in_block_aborts badTarget ( "CommandCode".toList) (by decide) 0
    ( "\ncase x = zz".toList) ( "case x = zz".toList) ( "x".toList) ( "zz".toList)
    none (by rfl) (by decide) (by rfl) (by rfl)
